import Mathlib

/-!
Verification development for the build-graph execution scheduler exposed by
`src/rust/engine/src/cffi/scheduler.h`.

The header declares the FFI surface (types and function signatures); the
behaviour behind those signatures is modelled from the specification
(`spec.md`), since only declarations are present in the sources.  Host values
are opaque handles; the host supplies callbacks such as `identify`.  All data
model types (`Id`, `TypeId`, `Ident`, `Key`, `Function`, buffers, generator
responses, `PyResult`) are transcribed from the header.
-/

namespace Pants

/-- `typedef uint64_t Id;` (modelled as `Nat`; the spec treats ids as stable
integer identities and never relies on wrap-around). -/
abbrev Id := Nat

/-- `typedef struct { Id _0; } TypeId;` — opaque numeric tag for a host type,
compared by value. -/
structure TypeId where
  val : Id
deriving DecidableEq, Repr

/-- `Ident`: the result of an `identify` call, `{int64_t hash; TypeId type_id;}`. -/
structure Ident where
  hash : Int
  type_id : TypeId
deriving DecidableEq, Repr

/-- `Key`: `{Id id; TypeId type_id;}` — wraps an interned id for use as a key. -/
structure Key where
  id : Id
  type_id : TypeId
deriving DecidableEq, Repr

/-- `typedef struct { Key _0; } Function;` — an interned reference to a
host-defined callable. -/
structure Function where
  key : Key
deriving DecidableEq, Repr

/-- `PyResult`: `{bool is_throw; Handle handle;}`.  The handle type is the
opaque host value type `V`. -/
structure PyResult (V : Type) where
  is_throw : Bool
  handle : V
deriving DecidableEq, Repr

/-- Host-supplied callbacks (the `externs_set` surface restricted to what the
modelled operations use).  `identify` computes the `Ident` of a host value. -/
structure Externs (V : Type) where
  identify : V → Ident

/-! ## Interning store

Modelled from the spec: the Rust implementation of `key_for` / `val_for` is
not among the sources (the header only declares `Key key_for(Handle value);`
and `Handle val_for(Key key);`).  Spec §4.1: `intern(value) -> Key` computes
or reuses an `Ident` for the value via the host's identify callback and
returns a stable `Key`; two values with equal `Ident` collapse to the same
`Key` (spec §3, `Ident`); `resolve(Key) -> value` returns the original host
value, failing if the `Key` was previously released (here: absent entry). -/

/-- The interning table: an association from `Ident` to the allocated `Id`
and the retained host value, plus the next fresh `Id`. -/
structure InternStore (V : Type) where
  table : List (Ident × Id × V)
  next : Id

/-- The empty interning table. -/
def InternStore.empty (V : Type) : InternStore V :=
  { table := [], next := 0 }

/-- Modelled from the spec: intern a host value whose `Ident` has already been
computed (used both by `key_for` and by the `Get`/`GetMulti` path, which
carries precomputed `Ident`s).  Reuses the existing entry when the `Ident` is
present, otherwise allocates a fresh `Id` and retains the value. -/
def keyForIdent {V : Type} (i : Ident) (v : V) (s : InternStore V) :
    Key × InternStore V :=
  match s.table.find? (fun e => e.1 == i) with
  | some e => (⟨e.2.1, i.type_id⟩, s)
  | none =>
    (⟨s.next, i.type_id⟩,
      { table := (i, s.next, v) :: s.table, next := s.next + 1 })

/-- Modelled from the spec: `Key key_for(Handle value);` — computes the
value's `Ident` via the host's identify callback and interns it. -/
def key_for {V : Type} (ex : Externs V) (v : V) (s : InternStore V) :
    Key × InternStore V :=
  keyForIdent (ex.identify v) v s

/-- Modelled from the spec: `Handle val_for(Key key);` — resolves an interned
`Key` back to the retained host value; `none` models the fatal `UnknownKey`
condition for a released key. -/
def val_for {V : Type} (s : InternStore V) (k : Key) : Option V :=
  (s.table.find? (fun e => e.2.1 == k.id)).map (fun e => e.2.2)

/-- Well-formedness of an interning table: every entry's recorded `Ident` is
the identify of its retained value, allocated ids are below `next`, and both
the allocated ids and the recorded `Ident`s are duplicate-free. -/
def InternStore.WF {V : Type} (ex : Externs V) (s : InternStore V) : Prop :=
  (∀ e ∈ s.table, e.1 = ex.identify e.2.2 ∧ e.2.1 < s.next) ∧
    (s.table.map (fun e => e.2.1)).Nodup ∧
    (s.table.map (fun e => e.1)).Nodup

/-! ## Task registry and Scheduler construction

Modelled from the spec: the implementations of `tasks_create`,
`tasks_task_begin`, `tasks_add_select`, `tasks_add_get`, `tasks_task_end` and
`scheduler_create` are not among the sources (the header only declares them).
Spec §4.2: `begin_task`/`end_task` bracket the declaration of one rule's
dependency selectors, building an immutable `Task` on `end_task`;
`add_select(product)` and `add_get(product, subject)` append selectors within
the open bracket; once a Scheduler is constructed from a Registry, the
Registry is frozen and attempts to mutate it fail with `RegistryFrozen`.  The
header's doc for `scheduler_create` adds: "The given Tasks struct will be
cloned, so no additional mutation of the reference will affect the created
Scheduler." -/

/-- A dependency selector declared between `tasks_task_begin` and
`tasks_task_end`: either a static `select` of a product, or a dynamic `get`
declaration of a `(product, subject)` pair. -/
inductive Selector where
  | select (product : TypeId)
  | get (product : TypeId) (subject : TypeId)
deriving DecidableEq, Repr

/-- One registered rule: a callable body, its output product type, its
cacheability flag, and its declared selectors (spec §3, `Task`). -/
structure Task where
  func : Function
  output_type : TypeId
  cacheable : Bool
  clause : List Selector
deriving DecidableEq, Repr

/-- The `Tasks` registry: the catalog of completed tasks, the task currently
open between `tasks_task_begin` and `tasks_task_end` (if any), and whether the
registry has been frozen by `scheduler_create`. -/
structure Tasks where
  catalog : List Task
  preparing : Option Task
  frozen : Bool
deriving DecidableEq, Repr

/-- Registry mutation errors (spec §7): `RegistryFrozen` is mutation after
`scheduler_create`; `NoOpenTask` models misuse of the begin/end bracket. -/
inductive RegistryError where
  | RegistryFrozen
  | NoOpenTask
deriving DecidableEq, Repr

/-- `const Tasks *tasks_create(void);` — a fresh, unfrozen, empty registry. -/
def tasks_create : Tasks :=
  { catalog := [], preparing := none, frozen := false }

/-- `void tasks_task_begin(Tasks*, Function func, TypeId output_type, bool
cacheable);` — opens the declaration bracket of one rule.  Fails with
`RegistryFrozen` on a frozen registry. -/
def tasks_task_begin (t : Tasks) (func : Function) (output_type : TypeId)
    (cacheable : Bool) : Except RegistryError Tasks :=
  if t.frozen then .error .RegistryFrozen
  else .ok { t with preparing := some ⟨func, output_type, cacheable, []⟩ }

/-- `void tasks_add_select(Tasks*, TypeId product);` — appends a static
selector to the open task.  Fails with `RegistryFrozen` on a frozen
registry. -/
def tasks_add_select (t : Tasks) (product : TypeId) :
    Except RegistryError Tasks :=
  if t.frozen then .error .RegistryFrozen
  else
    match t.preparing with
    | none => .error .NoOpenTask
    | some pt =>
      .ok { t with preparing := some { pt with clause := pt.clause ++ [.select product] } }

/-- `void tasks_add_get(Tasks*, TypeId product, TypeId subject);` — appends a
dynamic get declaration to the open task.  Fails with `RegistryFrozen` on a
frozen registry. -/
def tasks_add_get (t : Tasks) (product : TypeId) (subject : TypeId) :
    Except RegistryError Tasks :=
  if t.frozen then .error .RegistryFrozen
  else
    match t.preparing with
    | none => .error .NoOpenTask
    | some pt =>
      .ok { t with preparing := some { pt with clause := pt.clause ++ [.get product subject] } }

/-- `void tasks_task_end(Tasks*);` — closes the bracket, appending the built
`Task` to the catalog.  Fails with `RegistryFrozen` on a frozen registry. -/
def tasks_task_end (t : Tasks) : Except RegistryError Tasks :=
  if t.frozen then .error .RegistryFrozen
  else
    match t.preparing with
    | none => .error .NoOpenTask
    | some pt => .ok { t with catalog := t.catalog ++ [pt], preparing := none }

/-- The task catalog a Scheduler owns: per spec §3 the Scheduler holds the
Graph, the (cloned) Task catalog and configuration; only the catalog matters
to the claims modelled here. -/
structure SchedulerCore where
  tasks : List Task
deriving DecidableEq, Repr

/-- `const Scheduler *scheduler_create(Tasks *tasks_ptr, ...);` — clones the
registry's catalog into the new Scheduler and freezes the registry
(spec §4.2); returns the Scheduler together with the now-frozen registry. -/
def scheduler_create (t : Tasks) : SchedulerCore × Tasks :=
  (⟨t.catalog⟩, { t with frozen := true })

/-- One registry mutation request, used to quantify over arbitrary sequences
of post-construction mutations. -/
inductive TasksOp where
  | taskBegin (func : Function) (output_type : TypeId) (cacheable : Bool)
  | addSelect (product : TypeId)
  | addGet (product : TypeId) (subject : TypeId)
  | taskEnd
deriving DecidableEq, Repr

/-- Applies one mutation request to a registry; a failing request leaves the
registry unchanged (the C functions report the error and do not write). -/
def applyTasksOp (t : Tasks) (op : TasksOp) : Tasks :=
  let r := match op with
    | .taskBegin f o c => tasks_task_begin t f o c
    | .addSelect p => tasks_add_select t p
    | .addGet p s => tasks_add_get t p s
    | .taskEnd => tasks_task_end t
  match r with
  | .ok t' => t'
  | .error _ => t

/-- Applies a sequence of mutation requests, left to right. -/
def applyTasksOps (t : Tasks) (ops : List TasksOp) : Tasks :=
  ops.foldl applyTasksOp t

/-! ## Graph node lifecycle

Modelled from the spec: the Graph implementation is not among the sources.
Spec §3 (`Node`): a Node holds a state Pending / Running / Completed(value) /
Failed(error); §4.3: multiple concurrent requests for the same node share one
underlying Node; §3 invariant: the Graph provides at-most-one concurrent
execution per Node — a second concurrent request for a Running node joins the
in-flight computation rather than duplicating it.  Concurrency is modelled as
an arbitrary interleaving of atomic request/complete/fail events (possibly
issued by different Sessions of one Scheduler). -/

/-- The lifecycle state of one Graph node (spec §3, `Node`). -/
inductive NodeState (V : Type) where
  | pending
  | running
  | completed (value : V)
  | failed
deriving DecidableEq, Repr

/-- The Graph restricted to what the node-lifecycle claims observe: each
node's current state (`none` = never requested) and a count of how many times
its body has been started (the spec's "counting stub Task body"). -/
structure Graph (N V : Type) where
  state : N → Option (NodeState V)
  execs : N → Nat

/-- The empty Graph: no node requested, no executions. -/
def Graph.empty (N V : Type) : Graph N V :=
  { state := fun _ => none, execs := fun _ => 0 }

/-- Whether a request for a node in this state must start an execution
(never requested, or pending). -/
def startable {V : Type} : Option (NodeState V) → Bool
  | none => true
  | some .pending => true
  | some _ => false

/-- A request for node `n`: if no execution exists it starts one (state
becomes Running and the execution count increments); otherwise — Running,
Completed or Failed — it joins or reuses the existing node unchanged. -/
def Graph.request {N V : Type} [DecidableEq N] (g : Graph N V) (n : N) :
    Graph N V :=
  if startable (g.state n) then
    { state := Function.update g.state n (some .running),
      execs := Function.update g.execs n (g.execs n + 1) }
  else g

/-- The in-flight execution of node `n` finishes with `value`. -/
def Graph.complete {N V : Type} [DecidableEq N] (g : Graph N V) (n : N)
    (value : V) : Graph N V :=
  match g.state n with
  | some .running =>
    { g with state := Function.update g.state n (some (.completed value)) }
  | _ => g

/-- The in-flight execution of node `n` fails. -/
def Graph.fail {N V : Type} [DecidableEq N] (g : Graph N V) (n : N) :
    Graph N V :=
  match g.state n with
  | some .running =>
    { g with state := Function.update g.state n (some .failed) }
  | _ => g

/-- One atomic Graph event; a trace of these models any interleaving of
concurrent requests and completions. -/
inductive GraphOp (N V : Type) where
  | request (n : N)
  | complete (n : N) (value : V)
  | fail (n : N)

/-- Applies one Graph event. -/
def Graph.step {N V : Type} [DecidableEq N] (g : Graph N V) :
    GraphOp N V → Graph N V
  | .request n => g.request n
  | .complete n v => g.complete n v
  | .fail n => g.fail n

/-- Applies a trace of Graph events, left to right. -/
def Graph.steps {N V : Type} [DecidableEq N] (g : Graph N V)
    (ops : List (GraphOp N V)) : Graph N V :=
  ops.foldl Graph.step g

/-- Whether node `n` has ever had an execution started (Running, Completed or
Failed). -/
def Graph.started {N V : Type} (g : Graph N V) (n : N) : Bool :=
  match g.state n with
  | some .running => true
  | some (.completed _) => true
  | some .failed => true
  | _ => false

/-! ## ExecutionRequest and scheduler_execute

Modelled from the spec: the implementation of `scheduler_execute` is not among
the sources.  Spec §4.5: `execute(scheduler, session, request)` runs all roots
in the request to completion or failure, returning one result per root; a
root's failure does not abort sibling roots (spec §7: failures are scoped to
the Node/root that produced them).  The per-root evaluation itself — finding
the matching rule and running its body — is abstracted as a function of the
Scheduler's catalog and the root. -/

/-- One root goal of an `ExecutionRequest`: a `(subject Key, product TypeId)`
pair (the header's `execution_add_root_select`). -/
structure Root where
  subject : Key
  product : TypeId
deriving DecidableEq, Repr

/-- `ExecutionRequest`: an ordered sequence of roots (opaque in the header;
spec §3). -/
structure ExecutionRequest where
  roots : List Root
deriving DecidableEq, Repr

/-- `RawNodes`: the result buffer returned by `scheduler_execute`, one
`PyResult` per root (`nodes_ptr` / `nodes_len` modelled as a list). -/
structure RawNodes (V : Type) where
  nodes : List (PyResult V)
deriving DecidableEq, Repr

/-- Modelled from the spec: the evaluation loop of `scheduler_execute` —
evaluates each root in request order and records its result, continuing with
the remaining roots whether or not the result is a throw. -/
def executeRoots {V : Type} (evalNode : SchedulerCore → Root → PyResult V)
    (sch : SchedulerCore) : List Root → List (PyResult V)
  | [] => []
  | r :: rest => evalNode sch r :: executeRoots evalNode sch rest

/-- Modelled from the spec: `const RawNodes *scheduler_execute(Scheduler*,
Session*, ExecutionRequest*);` — runs all roots of the request, one result
per root. -/
def scheduler_execute {V : Type} (evalNode : SchedulerCore → Root → PyResult V)
    (sch : SchedulerCore) (req : ExecutionRequest) : RawNodes V :=
  ⟨executeRoots evalNode sch req.roots⟩

/-! ## Dependency resolution and cycle detection

Modelled from the spec: the Graph's dependency-resolution walk is not among
the sources.  Spec §4.3: executing a Node recursively resolves its declared
dependencies; cycles are a `CycleDetected` error at the Node attempting to
close the cycle; cyclic requests never deadlock — they fail fast.  Spec §9:
cycle detection walks the current path during dependency resolution.  Per the
claim's example the configuration is a rule graph over product types for one
fixed subject: `deps p` lists the products rule `p` requires.  The walk is
written with explicit fuel so that non-termination is observable as a `hang`
outcome; the theorems show `hang` is never reached once the fuel exceeds the
number of distinct products. -/

/-- Outcome of a dependency walk that did not succeed: the data-driven
`CycleDetected` error of spec §7, or exhaustion of the step budget (`hang`),
which the theorems rule out for adequate budgets. -/
inductive EvalErr where
  | cycleDetected
  | hang
deriving DecidableEq, Repr

/-- Modelled from the spec: the dependency-resolution walk.  `evalL deps fuel
worklist path` resolves each product in `worklist`, all reached along the
requesting chain `path` (innermost first): a product already on its own
requesting chain is the Node attempting to close a cycle and fails with
`CycleDetected`; otherwise its dependencies are resolved recursively with the
chain extended.  A dependency's failure propagates to the requester
(spec §4.3). -/
def evalL (deps : TypeId → List TypeId) :
    Nat → List TypeId → List TypeId → Except EvalErr Unit
  | _, [], _ => .ok ()
  | 0, _ :: _, _ => .error .hang
  | fuel + 1, p :: rest, path =>
    match (if p ∈ path then Except.error EvalErr.cycleDetected
           else evalL deps fuel (deps p) (p :: path)) with
    | .error e => .error e
    | .ok _ => evalL deps (fuel + 1) rest path
termination_by fuel l _ => (fuel, l.length)

/-- Modelled from the spec: requesting one root product with a fresh
requesting chain. -/
def evalRequest (deps : TypeId → List TypeId) (fuel : Nat) (p : TypeId) :
    Except EvalErr Unit :=
  evalL deps fuel [p] []

/-- A witness that every member of `S` has a dependency back inside `S`: any
product of `S` therefore lies on a dependency cycle. -/
def cyclic (deps : TypeId → List TypeId) (S : List TypeId) : Prop :=
  ∀ x ∈ S, ∃ y ∈ deps x, y ∈ S

/-! ## Get-multi batch delivery

Modelled from the spec: the batch resolution behind `extern_generator_send` is
not among the sources.  Spec §5: sibling dependency requests within one
get-multi batch are resolved with no defined completion order among
themselves, but the batch as a whole is delivered to the resuming Task
atomically — all-or-none, preserving the caller's index order.  The
undetermined completion order is modelled as an arbitrary list of slot
indices in which the individual resolutions finish. -/

/-- Collects a fully-resolved slot vector; `none` as soon as any slot is
still unresolved (the task is not resumed before the whole batch is
available). -/
def gather {A : Type} : List (Option A) → Option (List A)
  | [] => some []
  | none :: _ => none
  | some a :: rest => (gather rest).map (fun l => a :: l)

/-- Records finished resolutions into their slots, in completion order
`order`: completing index `i` stores the result of the `i`-th requested
dependency into slot `i`. -/
def fillSlots {Req Res : Type} (resolve : Req → Res) (reqs : List Req) :
    List Nat → List (Option Res) → List (Option Res)
  | [], slots => slots
  | i :: rest, slots =>
    fillSlots resolve reqs rest
      (match reqs.get? i with
       | some r => slots.set i (some (resolve r))
       | none => slots)

/-- Modelled from the spec: resolves a get-multi batch of sibling dependency
requests, the individual resolutions completing in the arbitrary order
`order`, and delivers the batch to the resuming Task only once every slot is
resolved (`none` = the task has not resumed). -/
def runBatch {Req Res : Type} (resolve : Req → Res) (reqs : List Req)
    (order : List Nat) : Option (List Res) :=
  gather (fillSlots resolve reqs order (List.replicate reqs.length none))

/-! ## Generator responses (`PyGeneratorResponse`)

Types transcribed from the header: the response from a call to
`extern_generator_send`.  Per the header's doc comment, "Gets include Idents
for their Handles in order to avoid roundtripping to intern them". -/

/-- `HandleBuffer`: `{Handle *handles_ptr; uint64_t handles_len; Handle
handle_;}` — the array modelled as a list of host values. -/
structure HandleBuffer (V : Type) where
  handles : List V
deriving DecidableEq, Repr

/-- `TypeIdBuffer`: `{TypeId *ids_ptr; uint64_t ids_len; Handle handle_;}`. -/
structure TypeIdBuffer where
  ids : List TypeId
deriving DecidableEq, Repr

/-- `IdentBuffer`: `{Ident *idents_ptr; uint64_t idents_len; Handle
handle_;}`. -/
structure IdentBuffer where
  idents : List Ident
deriving DecidableEq, Repr

/-- `Get_Body`: `{TypeId _0; Handle _1; Ident _2;}` — one requested product
type, the subject handle, and the subject's precomputed `Ident`. -/
structure Get_Body (V : Type) where
  product : TypeId
  handle : V
  ident : Ident
deriving DecidableEq, Repr

/-- `GetMulti_Body`: `{TypeIdBuffer _0; HandleBuffer _1; IdentBuffer _2;}` —
parallel buffers of requested product types, subject handles, and the
subjects' precomputed `Ident`s. -/
structure GetMulti_Body (V : Type) where
  products : TypeIdBuffer
  handles : HandleBuffer V
  idents : IdentBuffer
deriving DecidableEq, Repr

/-- `PyGeneratorResponse`: the tagged union over `Get` / `GetMulti` / `Broke`
/ `Throw` (`PyGeneratorResponse_Tag` plus the body union). -/
inductive PyGeneratorResponse (V : Type) where
  | get (body : Get_Body V)
  | getMulti (body : GetMulti_Body V)
  | broke (handle : V)
  | throw (handle : V)
deriving DecidableEq, Repr

/-- The header-documented contract of a suspension response: each carried
`Ident` is the identify of the handle it accompanies, and a `GetMulti`'s
three buffers are parallel (equal length). -/
def ResponseWF {V : Type} (ex : Externs V) : PyGeneratorResponse V → Prop
  | .get body => body.ident = ex.identify body.handle
  | .getMulti body =>
    body.products.ids.length = body.handles.handles.length ∧
      body.idents.idents = body.handles.handles.map ex.identify
  | .broke _ => True
  | .throw _ => True

/-- Interns a list of requested subjects from their handles paired with their
precomputed `Ident`s, threading the store and returning the keys in order. -/
def internPairs {V : Type} : List (V × Ident) → InternStore V →
    List Key × InternStore V
  | [], s => ([], s)
  | (v, i) :: rest, s =>
    ((keyForIdent i v s).1 :: (internPairs rest (keyForIdent i v s).2).1,
      (internPairs rest (keyForIdent i v s).2).2)

/-- Modelled from the spec: how the Graph interns the requested subjects of a
suspension response — using only the `Ident`s carried in the response, with
no further identify callback into the host (the response types carry no
callback, and `keyForIdent` takes none). -/
def internResponseSubjects {V : Type} (r : PyGeneratorResponse V)
    (s : InternStore V) : List Key × InternStore V :=
  match r with
  | .get body => internPairs [(body.handle, body.ident)] s
  | .getMulti body =>
    internPairs (body.handles.handles.zip body.idents.idents) s
  | .broke _ => ([], s)
  | .throw _ => ([], s)

/-- The roundtripping alternative the carried `Ident`s avoid: interning each
requested subject through the host's identify callback (`key_for`). -/
def internViaIdentify {V : Type} (ex : Externs V) : List V → InternStore V →
    List Key × InternStore V
  | [], s => ([], s)
  | v :: rest, s =>
    ((key_for ex v s).1 :: (internViaIdentify ex rest (key_for ex v s).2).1,
      (internViaIdentify ex rest (key_for ex v s).2).2)

/-- The subject handles a suspension response requests. -/
def responseHandles {V : Type} : PyGeneratorResponse V → List V
  | .get body => [body.handle]
  | .getMulti body => body.handles.handles
  | .broke _ => []
  | .throw _ => []

/-! ## Process-global interning (`key_for` / `val_for` signatures)

The header declares `Key key_for(Handle value);` and `Handle val_for(Key
key);` with no Scheduler, Session or store argument: the interning table is
process-global.  A process is modelled as the single shared store plus its
(any number of) Schedulers. -/

/-- A process: one global interning store and the Schedulers living in it. -/
structure Process (V : Type) where
  store : InternStore V
  schedulers : List SchedulerCore

/-- `key_for` at process scope: interns into the process's single store; no
Scheduler argument exists to select any other table. -/
def Process.key_for {V : Type} (ex : Externs V) (p : Process V) (v : V) :
    Key × Process V :=
  ((Pants.key_for ex v p.store).1,
    { p with store := (Pants.key_for ex v p.store).2 })

/-- `val_for` as invoked while working "under" the Scheduler at index
`schedulerIdx`: the C signature takes no Scheduler, so resolution reads the
process's single store whatever the index. -/
def Process.val_for_via {V : Type} (p : Process V) (_schedulerIdx : Nat)
    (k : Key) : Option V :=
  val_for p.store k

/-! ## A world of one registry and its Schedulers

For the copy-on-construct claim the registry and the Schedulers built from it
must live in one mutable world, so that "mutating the registry afterward"
ranges over operations on the shared reference while the Schedulers are
looked up from the same world. -/

/-- The engine world: the `Tasks` registry reference plus every Scheduler
constructed so far. -/
structure EngineWorld where
  registry : Tasks
  schedulers : List SchedulerCore
deriving DecidableEq, Repr

/-- `scheduler_create` at world scope: clones the registry's catalog into a
new Scheduler, freezes the registry, and returns the new Scheduler's index. -/
def EngineWorld.create (w : EngineWorld) : Nat × EngineWorld :=
  (w.schedulers.length,
    { registry := (scheduler_create w.registry).2,
      schedulers := w.schedulers ++ [(scheduler_create w.registry).1] })

/-- One registry mutation request at world scope. -/
def EngineWorld.mutate (w : EngineWorld) (op : TasksOp) : EngineWorld :=
  { w with registry := applyTasksOp w.registry op }

/-- A sequence of registry mutation requests at world scope. -/
def EngineWorld.mutates (w : EngineWorld) (ops : List TasksOp) : EngineWorld :=
  ops.foldl EngineWorld.mutate w

/-- Looks up the Scheduler at index `i`. -/
def EngineWorld.schedulerAt (w : EngineWorld) (i : Nat) : Option SchedulerCore :=
  w.schedulers.get? i

/-- Runs an execution request over the Scheduler at index `i` (`none` when no
such Scheduler exists). -/
def EngineWorld.execute {V : Type} (w : EngineWorld) (i : Nat)
    (evalNode : SchedulerCore → Root → PyResult V) (req : ExecutionRequest) :
    Option (RawNodes V) :=
  (w.schedulerAt i).map (fun sch => scheduler_execute evalNode sch req)

/-! ## Concrete instantiations used to witness the theorems -/

/-- A concrete host: values are naturals, identity hashes them mod 3 (so
distinct values can share an `Ident`), all of one type. -/
def exNat : Externs Nat :=
  ⟨fun n => ⟨Int.ofNat (n % 3), ⟨7⟩⟩⟩

/-- A concrete Graph with node `0` Running (execution already counted). -/
def gRun : Graph Nat Nat :=
  { state := fun n => if n = 0 then some .running else none,
    execs := fun n => if n = 0 then 1 else 0 }

/-- The claim's example cyclic configuration: the rule for product `0`
depends on product `1` and the rule for product `1` depends on product `0`
(same subject). -/
def depsAB : TypeId → List TypeId :=
  fun t => if t = ⟨0⟩ then [⟨1⟩] else if t = ⟨1⟩ then [⟨0⟩] else []

/-- A concrete root evaluator: roots with product type `99` throw, all others
succeed with their subject id. -/
def evalNodeNat : SchedulerCore → Root → PyResult Nat :=
  fun _ r => ⟨r.product = ⟨99⟩, r.subject.id⟩

/-! # Theorems -/

/-- Searching an association list for the entry whose projection equals a
member's projection finds exactly that member, provided the projection is
duplicate-free over the list. -/
lemma find?_of_mem_nodup {α β : Type} [DecidableEq β] (f : α → β) :
    ∀ (l : List α) (a : α), a ∈ l → (l.map f).Nodup →
      l.find? (fun e => f e == f a) = some a := by
  intro l
  induction l with
  | nil => intro a ha _; cases ha
  | cons b tl ih =>
    intro a ha hnd
    rw [List.map_cons] at hnd
    have hnd' := List.nodup_cons.mp hnd
    rcases List.mem_cons.mp ha with rfl | hmem
    · exact List.find?_cons_of_pos _ (by simp)
    · have hne : (f b == f a) = false := by
        simp only [beq_eq_false_iff_ne, ne_eq]
        intro hEq
        exact hnd'.1 (by rw [hEq]; exact List.mem_map_of_mem f hmem)
      rw [List.find?_cons, hne]
      exact ih a hmem hnd'.2

/-- C1: Interning is determined by identity — two host values whose identify
callback returns equal `Ident` values collapse to the same `Key` under
`key_for`. -/
theorem C1_intern_determined_by_ident {V : Type} (ex : Externs V) (v1 v2 : V)
    (s : InternStore V) (h : ex.identify v1 = ex.identify v2) :
    (key_for ex v2 (key_for ex v1 s).2).1 = (key_for ex v1 s).1 := by
  unfold key_for keyForIdent
  rw [h]
  cases hfind : s.table.find? (fun e => e.1 == ex.identify v2) with
  | some e => simp [hfind]
  | none => simp [hfind]

/-- Witness for C1 at concrete inputs: the values `2` and `5` share an
`Ident` under `exNat` and collapse to the same `Key`. -/
theorem C1_intern_determined_by_ident_witness :
    (key_for exNat 5 (key_for exNat 2 (InternStore.empty Nat)).2).1 =
      (key_for exNat 2 (InternStore.empty Nat)).1 :=
  C1_intern_determined_by_ident exNat 2 5 (InternStore.empty Nat) rfl

/-- Interning then resolving yields a retained value with the interned
value's identity (shared between the round-trip and process-global claims). -/
lemma val_for_key_for {V : Type} (ex : Externs V) (v : V) (s : InternStore V)
    (hWF : s.WF ex) :
    Option.map ex.identify (val_for (key_for ex v s).2 (key_for ex v s).1) =
      some (ex.identify v) := by
  obtain ⟨hent, hids, _⟩ := hWF
  unfold key_for keyForIdent val_for
  cases hfind : s.table.find? (fun e => e.1 == ex.identify v) with
  | some e =>
    have hmem := List.mem_of_find?_eq_some hfind
    have hident : e.1 = ex.identify v := by simpa using List.find?_some hfind
    have hfid : s.table.find? (fun e' => e'.2.1 == e.2.1) = some e :=
      find?_of_mem_nodup (fun e' => e'.2.1) s.table e hmem hids
    simp only [hfind, hfid, Option.map_some']
    rw [← (hent e hmem).1]
    exact congrArg some hident
  | none =>
    simp only [hfind]
    rw [List.find?_cons_of_pos _ (by simp)]
    rfl

/-- C2: Intern/resolve round-trip — while the `Key` returned by `key_for` is
live, `val_for` resolves it to a retained value equal to the interned one
(value equality in the data model is by `Ident`: spec §3). -/
theorem C2_intern_resolve_roundtrip {V : Type} (ex : Externs V) (v : V)
    (s : InternStore V) (hWF : s.WF ex) :
    Option.map ex.identify (val_for (key_for ex v s).2 (key_for ex v s).1) =
      some (ex.identify v) :=
  val_for_key_for ex v s hWF

/-- Witness for C2 at concrete inputs: interning `5` into the empty store and
resolving the returned `Key` gives back a value identified as `5` is. -/
theorem C2_intern_resolve_roundtrip_witness :
    Option.map exNat.identify
        (val_for (key_for exNat 5 (InternStore.empty Nat)).2
          (key_for exNat 5 (InternStore.empty Nat)).1) =
      some (exNat.identify 5) :=
  C2_intern_resolve_roundtrip exNat 5 (InternStore.empty Nat)
    (by constructor <;> simp [InternStore.empty])

/-- C10: The interning table is process-global — `key_for` / `val_for` take
no Scheduler argument, so a `Key` interned while working under one Scheduler
resolves to the same (identity-equal) value under every other Scheduler of
the process. -/
theorem C10_interning_process_global {V : Type} (ex : Externs V)
    (p : Process V) (v : V) (i j : Nat) (hWF : p.store.WF ex) :
    Process.val_for_via (Process.key_for ex p v).2 i (Process.key_for ex p v).1 =
      Process.val_for_via (Process.key_for ex p v).2 j (Process.key_for ex p v).1 ∧
      Option.map ex.identify
          (Process.val_for_via (Process.key_for ex p v).2 j
            (Process.key_for ex p v).1) =
        some (ex.identify v) := by
  refine ⟨rfl, ?_⟩
  simpa [Process.key_for, Process.val_for_via] using val_for_key_for ex v p.store hWF

/-- Witness for C10 at concrete inputs: a process holding two Schedulers;
a value interned under the first resolves identically under the second. -/
theorem C10_interning_process_global_witness :
    (Process.val_for_via
        (Process.key_for exNat ⟨InternStore.empty Nat, [⟨[]⟩, ⟨[]⟩]⟩ 5).2 0
        (Process.key_for exNat ⟨InternStore.empty Nat, [⟨[]⟩, ⟨[]⟩]⟩ 5).1 =
      Process.val_for_via
        (Process.key_for exNat ⟨InternStore.empty Nat, [⟨[]⟩, ⟨[]⟩]⟩ 5).2 1
        (Process.key_for exNat ⟨InternStore.empty Nat, [⟨[]⟩, ⟨[]⟩]⟩ 5).1) ∧
      Option.map exNat.identify
          (Process.val_for_via
            (Process.key_for exNat ⟨InternStore.empty Nat, [⟨[]⟩, ⟨[]⟩]⟩ 5).2 1
            (Process.key_for exNat ⟨InternStore.empty Nat, [⟨[]⟩, ⟨[]⟩]⟩ 5).1) =
        some (exNat.identify 5) :=
  C10_interning_process_global exNat ⟨InternStore.empty Nat, [⟨[]⟩, ⟨[]⟩]⟩ 5 0 1
    (by constructor <;> simp [InternStore.empty])

/-- A frozen registry is a fixed point of every mutation request. -/
lemma applyTasksOp_frozen {t : Tasks} (hf : t.frozen = true) (op : TasksOp) :
    applyTasksOp t op = t := by
  cases op <;> simp [applyTasksOp, tasks_task_begin, tasks_add_select,
    tasks_add_get, tasks_task_end, hf]

/-- A frozen registry is a fixed point of every sequence of mutation
requests. -/
lemma applyTasksOps_frozen {t : Tasks} (hf : t.frozen = true) :
    ∀ ops : List TasksOp, applyTasksOps t ops = t := by
  intro ops
  induction ops with
  | nil => rfl
  | cons op rest ih =>
    show applyTasksOps (applyTasksOp t op) rest = t
    rw [applyTasksOp_frozen hf op]
    exact ih

/-- C4: After `scheduler_create`, every subsequent mutation of the registry —
`tasks_task_begin`, `tasks_add_select`, `tasks_add_get`, `tasks_task_end`,
in whatever sequence — fails with `RegistryFrozen`. -/
theorem C4_registry_frozen_after_create (t : Tasks) (ops : List TasksOp)
    (f : Function) (o : TypeId) (c : Bool) (product subject : TypeId) :
    tasks_task_begin (applyTasksOps (scheduler_create t).2 ops) f o c =
        .error .RegistryFrozen ∧
      tasks_add_select (applyTasksOps (scheduler_create t).2 ops) product =
        .error .RegistryFrozen ∧
      tasks_add_get (applyTasksOps (scheduler_create t).2 ops) product subject =
        .error .RegistryFrozen ∧
      tasks_task_end (applyTasksOps (scheduler_create t).2 ops) =
        .error .RegistryFrozen := by
  have hf : (scheduler_create t).2.frozen = true := rfl
  rw [applyTasksOps_frozen hf ops]
  exact ⟨by simp [tasks_task_begin, hf], by simp [tasks_add_select, hf],
    by simp [tasks_add_get, hf], by simp [tasks_task_end, hf]⟩

/-- World mutation requests never touch the constructed Schedulers. -/
lemma mutates_schedulers (w : EngineWorld) :
    ∀ ops : List TasksOp, (w.mutates ops).schedulers = w.schedulers := by
  intro ops
  induction ops generalizing w with
  | nil => rfl
  | cons op rest ih =>
    show ((w.mutate op).mutates rest).schedulers = w.schedulers
    rw [ih (w.mutate op)]
    rfl

/-- C5: Copy-on-construct — after `scheduler_create` clones the registry into
a Scheduler, any sequence of registry mutations leaves that Scheduler's task
catalog equal to the catalog at construction, and hence every execution over
that Scheduler returns exactly what it would have returned at construction
time. -/
theorem C5_copy_on_construct {V : Type} (w : EngineWorld) (ops : List TasksOp)
    (evalNode : SchedulerCore → Root → PyResult V) (req : ExecutionRequest) :
    (EngineWorld.mutates (w.create).2 ops).schedulerAt (w.create).1 =
        some ⟨w.registry.catalog⟩ ∧
      EngineWorld.execute (EngineWorld.mutates (w.create).2 ops) (w.create).1
          evalNode req =
        some (scheduler_execute evalNode ⟨w.registry.catalog⟩ req) := by
  have hsch : (EngineWorld.mutates (w.create).2 ops).schedulerAt (w.create).1 =
      some ⟨w.registry.catalog⟩ := by
    show ((EngineWorld.mutates (w.create).2 ops).schedulers).get? (w.create).1 =
      some ⟨w.registry.catalog⟩
    rw [mutates_schedulers (w.create).2 ops]
    show (w.schedulers ++ [(scheduler_create w.registry).1]).get?
      w.schedulers.length = some ⟨w.registry.catalog⟩
    rw [List.get?_concat_length]
    rfl
  refine ⟨hsch, ?_⟩
  rw [EngineWorld.execute, hsch]
  rfl

/-- The Graph's counting invariant: a node's body has been started exactly
once if its state ever left the unstarted states, and never otherwise. -/
def GraphInv {N V : Type} (g : Graph N V) : Prop :=
  ∀ n, g.execs n = if g.started n then 1 else 0

/-- The empty Graph satisfies the counting invariant. -/
lemma graphInv_empty (N V : Type) : GraphInv (Graph.empty N V) := by
  intro n
  simp [Graph.empty, Graph.started]

/-- Every atomic Graph event preserves the counting invariant. -/
lemma graphInv_step {N V : Type} [DecidableEq N] {g : Graph N V}
    (hInv : GraphInv g) (op : GraphOp N V) : GraphInv (g.step op) := by
  cases op with
  | request n =>
    show GraphInv (g.request n)
    unfold Graph.request
    by_cases hs : startable (g.state n) = true
    · rw [if_pos hs]
      intro m
      by_cases hm : m = n
      · subst hm
        have h0 : g.execs m = 0 := by
          have := hInv m
          unfold Graph.started at this
          unfold startable at hs
          cases hstate : g.state m with
          | none => simpa [hstate] using this
          | some st =>
            cases st <;> simp [hstate] at hs this <;> simpa using this
        simp [Graph.started, Function.update, h0]
      · have := hInv m
        simpa [Graph.started, Function.update, hm] using this
    · rw [if_neg hs]
      exact hInv
  | complete n v =>
    show GraphInv (g.complete n v)
    unfold Graph.complete
    cases hstate : g.state n with
    | none => exact hInv
    | some st =>
      cases st with
      | running =>
        intro m
        by_cases hm : m = n
        · subst hm
          have := hInv m
          simp [Graph.started, hstate] at this
          simpa [Graph.started, Function.update] using this
        · have := hInv m
          simpa [Graph.started, Function.update, hm] using this
      | pending => exact hInv
      | completed _ => exact hInv
      | failed => exact hInv
  | fail n =>
    show GraphInv (g.fail n)
    unfold Graph.fail
    cases hstate : g.state n with
    | none => exact hInv
    | some st =>
      cases st with
      | running =>
        intro m
        by_cases hm : m = n
        · subst hm
          have := hInv m
          simp [Graph.started, hstate] at this
          simpa [Graph.started, Function.update] using this
        · have := hInv m
          simpa [Graph.started, Function.update, hm] using this
      | pending => exact hInv
      | completed _ => exact hInv
      | failed => exact hInv

/-- Every trace of atomic Graph events preserves the counting invariant. -/
lemma graphInv_steps {N V : Type} [DecidableEq N] {g : Graph N V}
    (hInv : GraphInv g) (ops : List (GraphOp N V)) : GraphInv (g.steps ops) := by
  induction ops generalizing g with
  | nil => exact hInv
  | cons op rest ih => exact ih (graphInv_step hInv op)

/-- C3: At-most-one concurrent execution per Node — a request arriving while
a node is Running joins the in-flight computation (the Graph is unchanged, so
no second execution starts), and along every interleaving of concurrent
request/complete/fail events from the empty Graph each node's body is started
at most once. -/
theorem C3_at_most_one_execution {N V : Type} [DecidableEq N] :
    (∀ (g : Graph N V) (n : N), g.state n = some .running → g.request n = g) ∧
      ∀ (ops : List (GraphOp N V)) (n : N),
        ((Graph.empty N V).steps ops).execs n ≤ 1 := by
  constructor
  · intro g n hrun
    unfold Graph.request
    rw [hrun]
    rfl
  · intro ops n
    have := graphInv_steps (graphInv_empty N V) ops n
    rw [this]
    by_cases h : (Graph.steps (Graph.empty N V) ops).started n = true <;> simp [h]

/-- Witness for C3 at concrete inputs: requesting node `0` of `gRun` (already
Running) changes nothing, and a trace of two concurrent requests for node `0`
starts its body at most once. -/
theorem C3_at_most_one_execution_witness :
    gRun.request 0 = gRun ∧
      ((Graph.empty Nat Nat).steps [.request 0, .request 0]).execs 0 ≤ 1 :=
  ⟨C3_at_most_one_execution.1 gRun 0 (by simp [gRun]),
    C3_at_most_one_execution.2 [.request 0, .request 0] 0⟩

/-- The execution loop evaluates exactly the root list, in order. -/
lemma executeRoots_eq_map {V : Type} (evalNode : SchedulerCore → Root → PyResult V)
    (sch : SchedulerCore) :
    ∀ roots : List Root, executeRoots evalNode sch roots = roots.map (evalNode sch) := by
  intro roots
  induction roots with
  | nil => rfl
  | cons r rest ih => simp [executeRoots, ih]

/-- C6: `scheduler_execute` returns exactly one result per root, in the
request's root order; each root's result is its own evaluation, so a failing
root yields a failure result in its slot only, and a root's result is
unchanged whenever requests agree on that root, whatever happens to the
sibling roots. -/
theorem C6_one_result_per_root_isolated {V : Type}
    (evalNode : SchedulerCore → Root → PyResult V) (sch : SchedulerCore)
    (req req' : ExecutionRequest) :
    (scheduler_execute evalNode sch req).nodes.length = req.roots.length ∧
      (∀ i : Nat, (scheduler_execute evalNode sch req).nodes.get? i =
        (req.roots.get? i).map (evalNode sch)) ∧
      ∀ i : Nat, req.roots.get? i = req'.roots.get? i →
        (scheduler_execute evalNode sch req).nodes.get? i =
          (scheduler_execute evalNode sch req').nodes.get? i := by
  refine ⟨?_, ?_, ?_⟩
  · simp [scheduler_execute, executeRoots_eq_map]
  · intro i
    simp only [scheduler_execute, executeRoots_eq_map, List.get?_map]
  · intro i hagree
    simp only [scheduler_execute, executeRoots_eq_map, List.get?_map, hagree]

/-- Witness for C6 at concrete inputs: two requests agreeing on root 0, the
second root of the first request failing (`is_throw`), the second root of the
other differing — root 0's result is nevertheless identical, and each request
yields one result per root. -/
theorem C6_one_result_per_root_isolated_witness :
    (scheduler_execute evalNodeNat ⟨[]⟩
          ⟨[⟨⟨1, ⟨7⟩⟩, ⟨5⟩⟩, ⟨⟨2, ⟨7⟩⟩, ⟨99⟩⟩]⟩).nodes.length =
        ([⟨⟨1, ⟨7⟩⟩, ⟨5⟩⟩, ⟨⟨2, ⟨7⟩⟩, ⟨99⟩⟩] : List Root).length ∧
      (∀ i : Nat, (scheduler_execute evalNodeNat ⟨[]⟩
          ⟨[⟨⟨1, ⟨7⟩⟩, ⟨5⟩⟩, ⟨⟨2, ⟨7⟩⟩, ⟨99⟩⟩]⟩).nodes.get? i =
        (([⟨⟨1, ⟨7⟩⟩, ⟨5⟩⟩, ⟨⟨2, ⟨7⟩⟩, ⟨99⟩⟩] : List Root).get? i).map
          (evalNodeNat ⟨[]⟩)) ∧
      ∀ i : Nat,
        ([⟨⟨1, ⟨7⟩⟩, ⟨5⟩⟩, ⟨⟨2, ⟨7⟩⟩, ⟨99⟩⟩] : List Root).get? i =
          ([⟨⟨1, ⟨7⟩⟩, ⟨5⟩⟩, ⟨⟨3, ⟨7⟩⟩, ⟨4⟩⟩] : List Root).get? i →
        (scheduler_execute evalNodeNat ⟨[]⟩
            ⟨[⟨⟨1, ⟨7⟩⟩, ⟨5⟩⟩, ⟨⟨2, ⟨7⟩⟩, ⟨99⟩⟩]⟩).nodes.get? i =
          (scheduler_execute evalNodeNat ⟨[]⟩
            ⟨[⟨⟨1, ⟨7⟩⟩, ⟨5⟩⟩, ⟨⟨3, ⟨7⟩⟩, ⟨4⟩⟩]⟩).nodes.get? i :=
  C6_one_result_per_root_isolated evalNodeNat ⟨[]⟩
    ⟨[⟨⟨1, ⟨7⟩⟩, ⟨5⟩⟩, ⟨⟨2, ⟨7⟩⟩, ⟨99⟩⟩]⟩ ⟨[⟨⟨1, ⟨7⟩⟩, ⟨5⟩⟩, ⟨⟨3, ⟨7⟩⟩, ⟨4⟩⟩]⟩

/-- An empty worklist resolves successfully. -/
lemma evalL_nil (deps : TypeId → List TypeId) (f : Nat) (path : List TypeId) :
    evalL deps f [] path = .ok () := by
  simp [evalL]

/-- An exhausted step budget on a nonempty worklist is the `hang` outcome. -/
lemma evalL_zero (deps : TypeId → List TypeId) (p : TypeId)
    (rest path : List TypeId) :
    evalL deps 0 (p :: rest) path = .error .hang := by
  simp [evalL]

/-- One unfolding of the dependency walk on a nonempty worklist. -/
lemma evalL_cons (deps : TypeId → List TypeId) (f : Nat) (p : TypeId)
    (rest path : List TypeId) :
    evalL deps (f + 1) (p :: rest) path =
      match (if p ∈ path then Except.error EvalErr.cycleDetected
             else evalL deps f (deps p) (p :: path)) with
      | .error e => .error e
      | .ok _ => evalL deps (f + 1) rest path := by
  rw [evalL]

/-- If a worklist resolves successfully, so does each of its members alone. -/
lemma evalL_ok_mem {deps : TypeId → List TypeId} :
    ∀ (f : Nat) (l path : List TypeId) (p : TypeId),
      evalL deps f l path = .ok () → p ∈ l → evalL deps f [p] path = .ok () := by
  intro f l
  induction l with
  | nil => intro path p _ hp; cases hp
  | cons b rest ih =>
    intro path p hok hp
    cases f with
    | zero => rw [evalL_zero] at hok; cases hok
    | succ f' =>
      rw [evalL_cons] at hok
      cases hin : (if b ∈ path then Except.error EvalErr.cycleDetected
                   else evalL deps f' (deps b) (b :: path)) with
      | error e => rw [hin] at hok; cases hok
      | ok u =>
        rw [hin] at hok
        rcases List.mem_cons.mp hp with rfl | hmem
        · rw [evalL_cons, hin]
          exact evalL_nil deps (f' + 1) path
        · exact ih path p hok hmem

/-- A product lying on a dependency cycle never resolves successfully: the
walk always meets the cycle again. -/
lemma evalL_cyclic_not_ok {deps : TypeId → List TypeId} {S : List TypeId}
    (hS : cyclic deps S) :
    ∀ (f : Nat) (p : TypeId) (path : List TypeId), p ∈ S →
      evalL deps f [p] path ≠ .ok () := by
  intro f
  induction f with
  | zero => intro p path _ h; rw [evalL_zero] at h; cases h
  | succ f' ih =>
    intro p path hpS hok
    rw [evalL_cons] at hok
    by_cases hp : p ∈ path
    · rw [if_pos hp] at hok; cases hok
    · rw [if_neg hp] at hok
      cases hin : evalL deps f' (deps p) (p :: path) with
      | error e => rw [hin] at hok; cases hok
      | ok u =>
        obtain ⟨y, hy, hyS⟩ := hS p hpS
        exact ih y (p :: path) hyS (evalL_ok_mem f' (deps p) (p :: path) y hin hy)

/-- A duplicate-free requesting chain inside a finite universe is no longer
than the universe's cardinality. -/
lemma path_length_le {U : Finset TypeId} {path : List TypeId}
    (hsub : ∀ x ∈ path, x ∈ U) (hnd : path.Nodup) : path.length ≤ U.card := by
  have h1 : path.toFinset ⊆ U := fun x hx => hsub x (List.mem_toFinset.mp hx)
  calc path.length = path.toFinset.card := (List.toFinset_card_of_nodup hnd).symm
    _ ≤ U.card := Finset.card_le_card h1

/-- Budget adequacy: over a dependency-closed finite universe of products, a
step budget exceeding the universe's cardinality can never be exhausted — the
walk never returns `hang` (cyclic requests fail fast instead of hanging). -/
lemma evalL_no_hang {deps : TypeId → List TypeId} {U : Finset TypeId}
    (hU : ∀ x ∈ U, ∀ y ∈ deps x, y ∈ U) :
    ∀ (f : Nat) (l path : List TypeId), (∀ x ∈ l, x ∈ U) →
      (∀ x ∈ path, x ∈ U) → path.Nodup → U.card < f + path.length →
      evalL deps f l path ≠ .error .hang := by
  intro f
  induction f with
  | zero =>
    intro l path _ hp hnd hcard
    exact absurd hcard (not_lt.mpr (by simpa using path_length_le hp hnd))
  | succ f' ihf =>
    intro l
    induction l with
    | nil =>
      intro path _ _ _ _
      rw [evalL_nil]
      intro h
      cases h
    | cons b rest ihl =>
      intro path hl hp hnd hcard
      rw [evalL_cons]
      by_cases hb : b ∈ path
      · rw [if_pos hb]
        intro h
        cases h
      · rw [if_neg hb]
        have hbU : b ∈ U := hl b (List.mem_cons_self b rest)
        have hinner := ihf (deps b) (b :: path) (hU b hbU)
          (by
            intro x hx
            rcases List.mem_cons.mp hx with rfl | hx'
            · exact hbU
            · exact hp x hx')
          (List.nodup_cons.mpr ⟨hb, hnd⟩)
          (by rw [List.length_cons]; omega)
        cases hres : evalL deps f' (deps b) (b :: path) with
        | error e =>
          cases e with
          | hang => exact absurd hres hinner
          | cycleDetected =>
            intro h
            exact EvalErr.noConfusion (Except.error.inj h)
        | ok u =>
          show evalL deps (f' + 1) rest path ≠ Except.error EvalErr.hang
          exact ihl path (fun x hx => hl x (List.mem_cons_of_mem b hx)) hp hnd hcard

/-- C7: A cyclic dependency configuration fails with `CycleDetected` at the
node attempting to close the cycle, within a bounded step budget (one more
than the number of known products), and never hangs: the walk neither
succeeds nor exhausts the budget, for every membership of the root in a
dependency cycle inside a dependency-closed finite universe. -/
theorem C7_cycle_detected_fails_fast (deps : TypeId → List TypeId)
    (U : Finset TypeId) (hU : ∀ x ∈ U, ∀ y ∈ deps x, y ∈ U)
    (S : List TypeId) (hSU : ∀ x ∈ S, x ∈ U) (hcyc : cyclic deps S)
    (p : TypeId) (hp : p ∈ S) :
    evalRequest deps (U.card + 1) p = .error .cycleDetected := by
  have hnok := evalL_cyclic_not_ok hcyc (U.card + 1) p [] hp
  have hnhang := evalL_no_hang hU (U.card + 1) [p] []
    (by
      intro x hx
      rw [List.mem_singleton] at hx
      rw [hx]
      exact hSU p hp)
    (by intro x hx; cases hx) List.nodup_nil (by simp)
  unfold evalRequest
  cases hres : evalL deps (U.card + 1) [p] [] with
  | ok u => cases u; exact absurd hres hnok
  | error e =>
    cases e with
    | cycleDetected => rfl
    | hang => exact absurd hres hnhang

/-- Witness for C7 at the claim's example configuration: products `0` and `1`
each depending on the other — the request for product `0` fails with
`CycleDetected` within the bounded budget. -/
theorem C7_cycle_detected_fails_fast_witness :
    evalRequest depsAB (({⟨0⟩, ⟨1⟩} : Finset TypeId).card + 1) ⟨0⟩ =
      .error .cycleDetected :=
  C7_cycle_detected_fails_fast depsAB {⟨0⟩, ⟨1⟩} (by decide) [⟨0⟩, ⟨1⟩]
    (by decide) (by unfold cyclic; decide) ⟨0⟩ (by decide)

/-- Recording completions preserves the number of slots. -/
lemma fillSlots_length {Req Res : Type} (resolve : Req → Res) (reqs : List Req) :
    ∀ (order : List Nat) (slots : List (Option Res)),
      (fillSlots resolve reqs order slots).length = slots.length := by
  intro order
  induction order with
  | nil => intro slots; rfl
  | cons j rest ih =>
    intro slots
    rw [fillSlots]
    cases hj : reqs.get? j with
    | none => exact ih slots
    | some r =>
      exact (ih (slots.set j (some (resolve r)))).trans (List.length_set slots j _)

/-- A slot whose index never completes keeps its contents. -/
lemma fillSlots_not_mem {Req Res : Type} (resolve : Req → Res)
    (reqs : List Req) :
    ∀ (order : List Nat) (slots : List (Option Res)) (i : Nat), i ∉ order →
      (fillSlots resolve reqs order slots).get? i = slots.get? i := by
  intro order
  induction order with
  | nil => intro slots i _; rfl
  | cons j rest ih =>
    intro slots i hmem
    have hij : j ≠ i := fun h => hmem (h ▸ List.mem_cons_self j rest)
    have hrest : i ∉ rest := fun h => hmem (List.mem_cons_of_mem j h)
    rw [fillSlots]
    cases hj : reqs.get? j with
    | none => exact ih slots i hrest
    | some r =>
      exact (ih (slots.set j (some (resolve r))) i hrest).trans
        (List.get?_set_ne _ _ hij)

/-- A slot whose index completes at some point holds its dependency's
resolution at the end, whatever the completion order. -/
lemma fillSlots_mem {Req Res : Type} (resolve : Req → Res) (reqs : List Req) :
    ∀ (order : List Nat) (slots : List (Option Res)) (i : Nat) (r : Req),
      i ∈ order → reqs.get? i = some r → slots.length = reqs.length →
      (fillSlots resolve reqs order slots).get? i = some (some (resolve r)) := by
  intro order
  induction order with
  | nil => intro slots i r hmem _ _; cases hmem
  | cons j rest ih =>
    intro slots i r hmem hr hlen
    rw [fillSlots]
    by_cases hij : i = j
    · subst hij
      rw [hr]
      by_cases hrest : i ∈ rest
      · exact ih (slots.set i (some (resolve r))) i r hrest hr
          (by rw [List.length_set]; exact hlen)
      · rw [fillSlots_not_mem resolve reqs rest _ i hrest]
        have hilt : i < reqs.length := by
          rcases List.get?_eq_some.mp hr with ⟨h, _⟩
          exact h
        exact List.get?_set_eq_of_lt _ (by rw [hlen]; exact hilt)
    · have hrest : i ∈ rest := by
        rcases List.mem_cons.mp hmem with h | h
        · exact absurd h hij
        · exact h
      cases hj : reqs.get? j with
      | none => exact ih slots i r hrest hr hlen
      | some r' =>
        exact ih (slots.set j (some (resolve r'))) i r hrest hr
          (by rw [List.length_set]; exact hlen)

/-- Gathering a fully-resolved slot vector yields exactly its values. -/
lemma gather_map_some {A : Type} : ∀ l : List A, gather (l.map some) = some l := by
  intro l
  induction l with
  | nil => rfl
  | cons a rest ih => simp [gather, ih]

/-- Gathering a slot vector with an unresolved slot yields nothing. -/
lemma gather_none {A : Type} :
    ∀ l : List (Option A), (none : Option A) ∈ l → gather l = none := by
  intro l
  induction l with
  | nil => intro h; cases h
  | cons a rest ih =>
    intro h
    cases a with
    | none => rfl
    | some b =>
      rcases List.mem_cons.mp h with h' | h'
      · cases h'
      · simp [gather, ih h']

/-- C8: Get-multi batch delivery is all-or-none and order-preserving — for
every completion order of the sibling resolutions (any permutation of the
batch indices) the resuming Task receives the whole batch at once, ordered by
the caller's original index order; and while any one sibling is unresolved
the Task does not resume at all. -/
theorem C8_get_multi_batch_atomic_ordered {Req Res : Type}
    (resolve : Req → Res) (reqs : List Req) (order incomplete : List Nat)
    (i : Nat) (hperm : order.Perm (List.range reqs.length))
    (hi : i < reqs.length) (hmiss : i ∉ incomplete) :
    runBatch resolve reqs order = some (reqs.map resolve) ∧
      runBatch resolve reqs incomplete = none := by
  constructor
  · unfold runBatch
    have hfinal : fillSlots resolve reqs order (List.replicate reqs.length none) =
        (reqs.map resolve).map some := by
      apply List.ext_get?
      intro n
      by_cases hn : n < reqs.length
      · cases hr : reqs.get? n with
        | none =>
          rw [List.get?_eq_none] at hr
          omega
        | some r =>
          have hnmem : n ∈ order := hperm.mem_iff.mpr (List.mem_range.mpr hn)
          rw [fillSlots_mem resolve reqs order _ n r hnmem hr
            (List.length_replicate _ _)]
          rw [List.get?_map, List.get?_map, hr]
          rfl
      · have h1 : (fillSlots resolve reqs order
            (List.replicate reqs.length none)).get? n = none := by
          rw [List.get?_eq_none, fillSlots_length, List.length_replicate]
          omega
        have h2 : ((reqs.map resolve).map some).get? n = none := by
          rw [List.get?_eq_none, List.length_map, List.length_map]
          omega
        rw [h1, h2]
    rw [hfinal, gather_map_some]
  · unfold runBatch
    apply gather_none
    have : (fillSlots resolve reqs incomplete
        (List.replicate reqs.length none)).get? i = some none := by
      rw [fillSlots_not_mem resolve reqs incomplete _ i hmiss]
      rw [List.get?_eq_some]
      refine ⟨by rw [List.length_replicate]; exact hi, ?_⟩
      exact List.get_replicate _ _
    exact List.get?_mem this

/-- Witness for C8 at concrete inputs: three requests completing in the order
2, 0, 1 deliver the batch in index order; completing only 2 and 0 delivers
nothing. -/
theorem C8_get_multi_batch_atomic_ordered_witness :
    runBatch (fun n => n + 1) [10, 20, 30] [2, 0, 1] =
        some ([10, 20, 30].map (fun n => n + 1)) ∧
      runBatch (fun n => n + 1) [10, 20, 30] [2, 0] = none :=
  C8_get_multi_batch_atomic_ordered (fun n => n + 1) [10, 20, 30] [2, 0, 1]
    [2, 0] 1 (by decide) (by decide) (by decide)

/-- Interning a list of handle/ident pairs yields one key per pair. -/
lemma internPairs_length {V : Type} :
    ∀ (l : List (V × Ident)) (s : InternStore V),
      (internPairs l s).1.length = l.length := by
  intro l
  induction l with
  | nil => intro s; rfl
  | cons p rest ih =>
    intro s
    show ((keyForIdent p.2 p.1 s).1 ::
        (internPairs rest (keyForIdent p.2 p.1 s).2).1).length = rest.length + 1
    rw [List.length_cons, ih]

/-- Interning handles zipped with their identify images is exactly interning
through the identify callback. -/
lemma internPairs_zip_eq {V : Type} (ex : Externs V) :
    ∀ (hs : List V) (s : InternStore V),
      internPairs (hs.zip (hs.map ex.identify)) s = internViaIdentify ex hs s := by
  intro hs
  induction hs with
  | nil => intro s; rfl
  | cons v vs ih =>
    intro s
    show internPairs ((v, ex.identify v) :: vs.zip (vs.map ex.identify)) s = _
    simp only [internPairs, internViaIdentify, key_for]
    rw [ih]

/-- C9: Every suspension response carries the precomputed identity of each
requested subject alongside its handle — one `(TypeId, Handle, Ident)` triple
for a `Get`, parallel equal-length buffers for a `GetMulti` — so the Graph
interns every requested subject from the carried `Ident`s alone, with the
same keys and store as the identify-callback path would produce, one key per
requested subject, and no identify callback into the host. -/
theorem C9_responses_carry_idents {V : Type} (ex : Externs V)
    (r : PyGeneratorResponse V) (s : InternStore V) (h : ResponseWF ex r) :
    internResponseSubjects r s = internViaIdentify ex (responseHandles r) s ∧
      (internResponseSubjects r s).1.length = (responseHandles r).length := by
  cases r with
  | get body =>
    have hident : body.ident = ex.identify body.handle := h
    constructor
    · show internPairs [(body.handle, body.ident)] s = _
      simp only [internPairs, internViaIdentify, responseHandles, key_for, hident]
    · rfl
  | getMulti body =>
    obtain ⟨_, hidents⟩ := h
    constructor
    · show internPairs (body.handles.handles.zip body.idents.idents) s = _
      rw [hidents]
      exact internPairs_zip_eq ex body.handles.handles s
    · show (internPairs (body.handles.handles.zip body.idents.idents) s).1.length = _
      rw [hidents, internPairs_length, List.length_zip, List.length_map]
      exact Nat.min_self _
  | broke hv => exact ⟨rfl, rfl⟩
  | throw hv => exact ⟨rfl, rfl⟩

/-- Witness for C9 at a concrete `GetMulti` response requesting subjects `4`
and `5` with their precomputed `Ident`s. -/
theorem C9_responses_carry_idents_witness :
    (internResponseSubjects
          (PyGeneratorResponse.getMulti
            ⟨⟨[⟨1⟩, ⟨2⟩]⟩, ⟨[4, 5]⟩, ⟨[exNat.identify 4, exNat.identify 5]⟩⟩)
          (InternStore.empty Nat) =
        internViaIdentify exNat
          (responseHandles
            (PyGeneratorResponse.getMulti
              ⟨⟨[⟨1⟩, ⟨2⟩]⟩, ⟨[4, 5]⟩, ⟨[exNat.identify 4, exNat.identify 5]⟩⟩))
          (InternStore.empty Nat)) ∧
      (internResponseSubjects
          (PyGeneratorResponse.getMulti
            ⟨⟨[⟨1⟩, ⟨2⟩]⟩, ⟨[4, 5]⟩, ⟨[exNat.identify 4, exNat.identify 5]⟩⟩)
          (InternStore.empty Nat)).1.length =
        (responseHandles
          (PyGeneratorResponse.getMulti
            ⟨⟨[⟨1⟩, ⟨2⟩]⟩, ⟨[4, 5]⟩, ⟨[exNat.identify 4, exNat.identify 5]⟩⟩)).length :=
  C9_responses_carry_idents exNat
    (PyGeneratorResponse.getMulti
      ⟨⟨[⟨1⟩, ⟨2⟩]⟩, ⟨[4, 5]⟩, ⟨[exNat.identify 4, exNat.identify 5]⟩⟩)
    (InternStore.empty Nat) ⟨rfl, rfl⟩

end Pants
